import Mathlib

set_option autoImplicit false

/-!
Shallow embedding of the crynux-node core subsystems:
the node models (src/crynux_server/models/node.py), the node lifecycle
state manager (src/crynux_server/node_manager/state_manager.py), and
the connection pool with its nonce sequencer
(src/crynux_server/contracts/w3_pool.py).
-/

namespace Crynux

/-- ChainNodeStatus from src/crynux_server/models/node.py. -/
inductive ChainNodeStatus where
  | QUIT
  | AVAILABLE
  | BUSY
  | PENDING_PAUSE
  | PENDING_QUIT
  | PAUSED
  deriving DecidableEq, Repr

/-- NodeStatus from src/crynux_server/models/node.py. -/
inductive NodeStatus where
  | Init
  | Running
  | Paused
  | Stopped
  | Error
  | PendingPause
  | PendingStop
  deriving DecidableEq, Repr

/-- convert_node_status from src/crynux_server/models/node.py.
The python function raises ValueError on inputs outside the enum; the
Lean inductive covers exactly the six legal values, so the function is
total here. -/
def convert_node_status : ChainNodeStatus → NodeStatus
  | .QUIT => .Stopped
  | .AVAILABLE => .Running
  | .BUSY => .Running
  | .PENDING_PAUSE => .PendingPause
  | .PENDING_QUIT => .PendingStop
  | .PAUSED => .Paused

/-- Modelled from the spec: TxStatus is the four-value enumeration
{None, Pending, Success, Error} of the last-transaction cache (the
python TxStatus enum lives in crynux_server/models, outside src/). -/
inductive TxStatus where
  | NoneTx
  | Pending
  | Success
  | Error
  deriving DecidableEq, Repr

/-- Modelled from the spec: TxState is a status plus a human-readable
message (python TxState model, outside src/). -/
structure TxState where
  status : TxStatus
  message : String
  deriving DecidableEq, Repr

/-- NodeScoreState from src/crynux_server/models/node.py. The python
fields are floats that the core only carries through, never computes
with, so the carrier type is a parameter. -/
structure NodeScoreState (α : Type) where
  qos_score : α
  staking_score : α
  prob_weight : α
  deriving DecidableEq, Repr

/-- The fields of NodeInfo (src/crynux_server/models/node.py) that the
state manager reads: the remote status and the three score metrics. -/
structure NodeInfo (α : Type) where
  status : ChainNodeStatus
  qos_score : α
  staking_score : α
  prob_weight : α
  deriving DecidableEq, Repr

/-- Modelled from the spec: the ManagerStateCache (outside src/; its
abstract interface is src/crynux_server/node_manager/state_cache/abc.py)
holds the cached node status, the last-transaction state and the node
score state; setters overwrite, reads see the latest committed value. -/
structure CacheState (α : Type) where
  nodeStatus : NodeStatus
  tx : TxState
  score : NodeScoreState α
  deriving DecidableEq, Repr

/-- Modelled from the spec: set_node_state overwrites the cached node
status. -/
def set_node_state {α : Type} (c : CacheState α) (s : NodeStatus) : CacheState α :=
  { c with nodeStatus := s }

/-- Modelled from the spec: set_tx_state overwrites the cached
transaction state with a status and a message. -/
def set_tx_state {α : Type} (c : CacheState α) (s : TxStatus) (msg : String) : CacheState α :=
  { c with tx := ⟨s, msg⟩ }

/-- Modelled from the spec: set_node_score_state overwrites the cached
node score state. -/
def set_node_score_state {α : Type} (c : CacheState α) (s : NodeScoreState α) : CacheState α :=
  { c with score := s }

/-- One observable write to the ManagerStateCache. -/
inductive CacheWrite (α : Type) where
  | nodeWrite (s : NodeStatus)
  | txWrite (t : TxState)
  | scoreWrite (s : NodeScoreState α)
  deriving DecidableEq, Repr

/-- The node-status writes in a cache write log. -/
def nodeWritesOf {α : Type} (ws : List (CacheWrite α)) : List NodeStatus :=
  ws.filterMap fun w =>
    match w with
    | .nodeWrite s => some s
    | _ => none

/-- The transaction-state writes in a cache write log. -/
def txWritesOf {α : Type} (ws : List (CacheWrite α)) : List TxState :=
  ws.filterMap fun w =>
    match w with
    | .txWrite t => some t
    | _ => none

/-- The score-state writes in a cache write log. -/
def scoreWritesOf {α : Type} (ws : List (CacheWrite α)) : List (NodeScoreState α) :=
  ws.filterMap fun w =>
    match w with
    | .scoreWrite s => some s
    | _ => none

/-! ## NodeStateManager: background sync loop
One iteration of the loop body of NodeStateManager.start_sync
(state_manager.py lines 87-100): fetch node info, map the remote
status, write the node status to the cache only when it differs from
the cached value, always write the score state. -/

/-- The score state carried by a NodeInfo. -/
def scoreOf {α : Type} (info : NodeInfo α) : NodeScoreState α :=
  ⟨info.qos_score, info.staking_score, info.prob_weight⟩

/-- One tick of NodeStateManager.start_sync: returns the new cache and
the log of cache writes performed during the tick. The node status is
written only when the mapped status differs from the cached one; the
score state is written unconditionally. -/
def syncTick {α : Type} (info : NodeInfo α) (c : CacheState α) :
    CacheState α × List (CacheWrite α) :=
  let localStatus := convert_node_status info.status
  let ws1 :=
    if localStatus ≠ c.nodeStatus then [CacheWrite.nodeWrite localStatus] else []
  let c1 :=
    if localStatus ≠ c.nodeStatus then set_node_state c localStatus else c
  (set_node_score_state c1 (scoreOf info),
    ws1 ++ [CacheWrite.scoreWrite (scoreOf info)])

/-- The sync loop run over a finite trace of observed NodeInfo values,
accumulating all cache writes. -/
def start_sync {α : Type} (infos : List (NodeInfo α)) (c : CacheState α) :
    CacheState α × List (CacheWrite α) :=
  match infos with
  | [] => (c, [])
  | info :: rest =>
    let t := syncTick info c
    let r := start_sync rest t.1
    (r.1, t.2 ++ r.2)

/-! ## NodeStateManager: deferred wait operations -/

/-- The assertion message of _wait_for_running (state_manager.py
lines 42-44). -/
def runningAssertMsg : String := "Node status on chain is not running."

/-- _wait_for_running (state_manager.py lines 40-46): poll the remote
status once; assert it maps to Running; on success write the node
status and TxStatus.Success to the cache (no cache write on assertion
failure, since the assert precedes both writes). -/
def wait_for_running {α : Type} (s : ChainNodeStatus) (c : CacheState α) :
    Except String (CacheState α × List (CacheWrite α)) :=
  let localStatus := convert_node_status s
  if localStatus = NodeStatus.Running then
    Except.ok
      (set_tx_state (set_node_state c localStatus) .Success "",
        [CacheWrite.nodeWrite localStatus, CacheWrite.txWrite ⟨.Success, ""⟩])
  else Except.error runningAssertMsg

/-- The chain statuses that are legal during a wait-for-running poll
according to the claim: the "running or becoming running" values, i.e.
exactly those that convert_node_status maps to Running (AVAILABLE and
BUSY; no chain status maps to a pending-run value). -/
def runningOrBecomingRunning (s : ChainNodeStatus) : Bool :=
  convert_node_status s = NodeStatus.Running

/-- Modelled from the spec: the claim's reading of the wait operation as
a polling loop over a trace of remote statuses — poll; fail if the
status is not a legal running-or-becoming-running value; finish (writing
the node status and TxStatus.Success) once the status maps to Running;
otherwise keep polling. Returns none when the trace is exhausted while
still polling. -/
def pollUntilRunningClaim {α : Type} (trace : List ChainNodeStatus) (c : CacheState α) :
    Except String (Option (CacheState α × List (CacheWrite α))) :=
  match trace with
  | [] => Except.ok none
  | s :: rest =>
    if runningOrBecomingRunning s then
      if convert_node_status s = NodeStatus.Running then
        Except.ok
          (some (set_tx_state (set_node_state c (convert_node_status s)) .Success "",
            [CacheWrite.nodeWrite (convert_node_status s), CacheWrite.txWrite ⟨.Success, ""⟩]))
      else pollUntilRunningClaim rest c
    else Except.error runningAssertMsg

/-- The assertion message of _wait_for_stop (state_manager.py
lines 53-56). -/
def stopAssertMsg : String := "Node status on chain is not stopped or pending."

/-- Outcome of running a polling wait over a finite trace. -/
inductive WaitOutcome where
  | done
  | exhausted
  | assertFailed (msg : String)
  deriving DecidableEq, Repr

/-- Result of a polling wait: final cache, cache-write log, outcome. -/
structure WaitResult (α : Type) where
  cache : CacheState α
  writes : List (CacheWrite α)
  outcome : WaitOutcome
  deriving DecidableEq, Repr

/-- The loop of _wait_for_stop (state_manager.py lines 48-62) with the
`pending` flag explicit: each iteration polls one status, asserts it
maps to Stopped or PendingStop, writes the mapped status to the node
cache, writes TxStatus.Success on the first iteration only, and breaks
when the mapped status is Stopped. -/
def waitForStopGo {α : Type} :
    List ChainNodeStatus → CacheState α → Bool → WaitResult α
  | [], c, _ => ⟨c, [], .exhausted⟩
  | s :: rest, c, pending =>
    let l := convert_node_status s
    if l = NodeStatus.Stopped ∨ l = NodeStatus.PendingStop then
      let c1 := set_node_state c l
      let stepWrites :=
        CacheWrite.nodeWrite l ::
          (if pending then [CacheWrite.txWrite (⟨.Success, ""⟩ : TxState)] else [])
      let c2 := if pending then set_tx_state c1 .Success "" else c1
      if l = NodeStatus.Stopped then ⟨c2, stepWrites, .done⟩
      else
        let r := waitForStopGo rest c2 false
        ⟨r.cache, stepWrites ++ r.writes, r.outcome⟩
    else ⟨c, [], .assertFailed stopAssertMsg⟩

/-- _wait_for_stop over a finite trace of polled remote statuses
(`pending` starts true). -/
def wait_for_stop {α : Type} (trace : List ChainNodeStatus) (c : CacheState α) :
    WaitResult α :=
  waitForStopGo trace c true

/-- A chain status is legal during _wait_for_stop when it maps to
Stopped or PendingStop. -/
def stopLegal (s : ChainNodeStatus) : Bool :=
  convert_node_status s = NodeStatus.Stopped ∨
    convert_node_status s = NodeStatus.PendingStop

/-- The part of a status trace actually polled by _wait_for_stop when
every element is legal: everything up to and including the first
element mapping to Stopped. -/
def polledPart : List ChainNodeStatus → List ChainNodeStatus
  | [] => []
  | s :: rest =>
    if convert_node_status s = NodeStatus.Stopped then [s]
    else s :: polledPart rest

/-! ## NodeStateManager: start and stop operations
NodeStateManager.start (state_manager.py lines 187-227) and
NodeStateManager.stop (lines 229-252), including the effect of the
surrounding _wrap_tx_error translator (lines 108-124): AssertionError,
ValueError and RelayError are recorded into the transaction cache as
TxStatus.Error with the error message and re-raised. The relay calls
made by each operation are logged explicitly. -/

/-- One call to the Relay collaborator. -/
inductive RelayCall where
  | getNodeInfo
  | getBalance
  | nodeJoin
  | nodeQuit
  | nodePause
  | nodeResume
  deriving DecidableEq, Repr

/-- Outcome of a lifecycle operation: the transaction was accepted
(submitted, TxStatus set to Pending), or the operation raised. -/
inductive OpOutcome where
  | accepted
  | failed (msg : String)
  deriving DecidableEq, Repr

/-- Result of a lifecycle operation: final cache state, the relay calls
made (in order), and the outcome. -/
structure OpResult (α : Type) where
  cache : CacheState α
  relayCalls : List RelayCall
  outcome : OpOutcome
  deriving DecidableEq, Repr

/-- Assertion message of start() when the node is not stopped
(state_manager.py lines 198-200). -/
def startNotStoppedMsg : String := "Cannot start node. Node is not stopped."

/-- Assertion message of start()/stop() when the last transaction is
pending (state_manager.py lines 201-203). -/
def txPendingMsg : String := "Cannot start node. Last transaction is in pending."

/-- ValueError message of start() on insufficient balance
(state_manager.py line 208). -/
def insufficientBalanceMsg : String := "Node token balance is not enough to join."

/-- Assertion message of stop() when the node is not running
(state_manager.py lines 237-239). -/
def stopNotRunningMsg : String := "Cannot stop node. Node is not running."

/-- Web3.to_wei(amount, "ether"): ether to wei conversion used by
start() on the configured staking amount (state_manager.py line 205). -/
def to_wei_ether (amount : Nat) : Nat := amount * 10 ^ 18

/-- NodeStateManager.start up to returning the deferred wait closure:
precondition asserts against the cache, balance check against the
staking amount, join submission, TxStatus set to Pending. A raised
AssertionError or ValueError is translated by _wrap_tx_error into a
TxStatus.Error cache write and re-raised. `stakingAmount` is the
configured whole-token amount; `balance` is the relay-reported balance
in wei. -/
def startOp {α : Type} (c : CacheState α) (stakingAmount : Nat) (balance : Nat) :
    OpResult α :=
  if c.nodeStatus ≠ NodeStatus.Stopped then
    ⟨set_tx_state c .Error startNotStoppedMsg, [], .failed startNotStoppedMsg⟩
  else if c.tx.status = TxStatus.Pending then
    ⟨set_tx_state c .Error txPendingMsg, [], .failed txPendingMsg⟩
  else
    let stakingWei := to_wei_ether stakingAmount
    if balance < stakingWei then
      ⟨set_tx_state c .Error insufficientBalanceMsg, [RelayCall.getBalance],
        .failed insufficientBalanceMsg⟩
    else
      ⟨set_tx_state c .Pending "", [RelayCall.getBalance, RelayCall.nodeJoin],
        .accepted⟩

/-- NodeStateManager.stop up to returning the deferred wait closure:
precondition asserts against the cache, quit submission, TxStatus set
to Pending; assertion failures are translated by _wrap_tx_error into a
TxStatus.Error cache write and re-raised. -/
def stopOp {α : Type} (c : CacheState α) : OpResult α :=
  if c.nodeStatus ≠ NodeStatus.Running then
    ⟨set_tx_state c .Error stopNotRunningMsg, [], .failed stopNotRunningMsg⟩
  else if c.tx.status = TxStatus.Pending then
    ⟨set_tx_state c .Error txPendingMsg, [], .failed txPendingMsg⟩
  else
    ⟨set_tx_state c .Pending "", [RelayCall.nodeQuit], .accepted⟩

/-! ## W3Pool: guard table, idle queue, lifecycle
From src/crynux_server/contracts/w3_pool.py. Guards are kept as ids in
the pool's guard table; the idle queue is a python deque with
maxlen = pool size (appending to a full deque silently drops the
front element). -/

/-- The observable pool state of W3Pool: pool size, idle deque (front
at the head), guard table (ids, in insertion order), the next guard id,
and the closed flag. -/
structure PoolState where
  poolSize : Nat
  idlePool : List Nat
  guards : List Nat
  nextId : Nat
  closed : Bool
  deriving DecidableEq, Repr

/-- W3Pool.__init__ pool bookkeeping: empty idle deque, empty guard
table, next id 1, not closed. -/
def initPool (poolSize : Nat) : PoolState :=
  ⟨poolSize, [], [], 1, false⟩

/-- Append to a python deque with the given maxlen: when the deque is
full the front element is silently discarded. -/
def dequeAppend (maxlen : Nat) (q : List Nat) (x : Nat) : List Nat :=
  if maxlen < (q ++ [x]).length then (q ++ [x]).tail else q ++ [x]

/-- W3Pool.on_guard_idle (w3_pool.py lines 180-185): if the id is still
tracked, append it to the idle deque (and wake one waiter). -/
def on_guard_idle (s : PoolState) (id : Nat) : PoolState :=
  if id ∈ s.guards then
    { s with idlePool := dequeAppend s.poolSize s.idlePool id }
  else s

/-- W3Pool.on_guard_close (w3_pool.py lines 187-193): if the id is still
tracked, remove it from the guard table and from the idle deque. -/
def on_guard_close (s : PoolState) (id : Nat) : PoolState :=
  if id ∈ s.guards then
    { s with guards := s.guards.erase id, idlePool := s.idlePool.erase id }
  else s

/-- What W3Pool.get returned (or would do) in one synchronized step. -/
inductive GetResult where
  | fresh (id : Nat)
  | reused (id : Nat)
  | blocked
  | poolClosed
  deriving DecidableEq, Repr

/-- W3Pool.get (w3_pool.py lines 268-286) as one synchronized step:
fails when the pool is closed; constructs a fresh guard when the idle
deque is empty and the guard table is below the pool size; otherwise
pops the front idle guard when one exists; otherwise the caller blocks
(state unchanged). -/
def get (s : PoolState) : PoolState × GetResult :=
  if s.closed then (s, .poolClosed)
  else if s.idlePool.isEmpty ∧ s.guards.length < s.poolSize then
    ({ s with guards := s.guards ++ [s.nextId], nextId := s.nextId + 1 },
      .fresh s.nextId)
  else
    match s.idlePool with
    | id :: rest => ({ s with idlePool := rest }, .reused id)
    | [] => (s, .blocked)

/-- W3Pool.close (w3_pool.py lines 306-319): if not already closed,
close every guard in a snapshot of the guard table (each guard's close
calls on_guard_close on its own id), then set the closed flag and wake
all waiters. -/
def closePool (s : PoolState) : PoolState :=
  if s.closed then s
  else { s.guards.foldl on_guard_close s with closed := true }

/-- The exception observed when a guard's operation scope exits
(W3Guard.__aexit__, w3_pool.py lines 56-63). -/
inductive ExitExc where
  | connClosed
  | otherExc (msg : String)
  | noExc
  deriving DecidableEq, Repr

/-- W3Guard.__aexit__ (w3_pool.py lines 56-63): on ConnectionClosed the
guard closes itself (evicting its id from the pool) and returns True,
which suppresses the exception; on any other exit the guard reports
idle and returns False (an exception, if any, propagates). Returns the
new pool state and whether the exception was suppressed. -/
def guardExit (s : PoolState) (id : Nat) (e : ExitExc) : PoolState × Bool :=
  match e with
  | .connClosed => (on_guard_close s id, true)
  | .otherExc _ => (on_guard_idle s id, false)
  | .noExc => (on_guard_idle s id, false)

/-- One interleaved pool operation. -/
inductive PoolOp where
  | acquire
  | release (id : Nat)
  | evict (id : Nat)
  | close
  deriving DecidableEq, Repr

/-- Apply one pool operation to the pool state. -/
def applyPoolOp (s : PoolState) : PoolOp → PoolState
  | .acquire => (get s).1
  | .release id => on_guard_idle s id
  | .evict id => on_guard_close s id
  | .close => closePool s

/-- Run a sequence of interleaved pool operations. -/
def runPoolOps (s : PoolState) (ops : List PoolOp) : PoolState :=
  ops.foldl applyPoolOp s

/-- Whether an operation can actually occur in the given state: a
release is the scope exit of a guard that was handed out, so its id is
not already idle (a guard in the idle deque is inside no caller's
scope); acquires, guard closes and pool close can occur at any time. -/
def opEnabled (s : PoolState) : PoolOp → Bool
  | .release id => decide (id ∉ s.idlePool)
  | _ => true

/-- Whether every operation of the sequence is enabled in the state it
executes in. -/
def enabledRun : PoolState → List PoolOp → Bool
  | _, [] => true
  | s, op :: ops => opEnabled s op && enabledRun (applyPoolOp s op) ops

/-- The pool invariant: the guard table never exceeds the pool size,
neither the guard table nor the idle deque holds duplicate ids, the
guard table contains every id in the idle deque, and every tracked id
is below the next fresh id. -/
def PoolInv (s : PoolState) : Prop :=
  s.guards.length ≤ s.poolSize ∧ s.guards.Nodup ∧ s.idlePool.Nodup ∧
    (∀ id ∈ s.idlePool, id ∈ s.guards) ∧ (∀ id ∈ s.guards, id < s.nextId)

/-! ## W3Pool: nonce sequencer
W3Pool.with_nonce (w3_pool.py lines 288-304). -/

/-- The result of the caller's scope run inside with_nonce. -/
inductive ScopeResult where
  | ok
  | raisedErr (msg : String)
  deriving DecidableEq, Repr

/-- Whether the five characters "nonce" occur as a contiguous block in
a character list. -/
def hasNonce : List Char → Bool
  | [] => false
  | c :: rest => ((c :: rest).take 5 = ['n', 'o', 'n', 'c', 'e']) || hasNonce rest

/-- The compiled pattern re.compile(r"nonce", re.IGNORECASE) searched
against the exception text (w3_pool.py lines 37, 301): true when
"nonce" occurs case-insensitively in the message. -/
def noncePatternMatches (msg : String) : Bool :=
  hasNonce (msg.data.map Char.toLower)

/-- Result of one with_nonce scope: the nonce yielded to the caller,
whether the remote pending count was fetched on entry, the cached nonce
after exit, and the outcome propagated to the caller. -/
structure NonceResult where
  yielded : Nat
  fetched : Bool
  newCache : Option Nat
  outcome : ScopeResult
  deriving DecidableEq, Repr

/-- W3Pool.with_nonce (w3_pool.py lines 288-304): assert the pool is
open; if no nonce is cached fetch the remote pending transaction count
and cache it; yield the nonce; on normal completion advance the cache
by one; on an exception whose text matches the nonce pattern clear the
cache and re-raise; on any other exception leave the cache as is and
re-raise. `remote` is the pending count the remote would report. -/
def with_nonce (closed : Bool) (cached : Option Nat) (remote : Nat)
    (scope : Nat → ScopeResult) : Except String NonceResult :=
  if closed then Except.error "w3 pool is closed"
  else
    let fetched := cached.isNone
    let nonce := cached.getD remote
    match scope nonce with
    | .ok => Except.ok ⟨nonce, fetched, some (nonce + 1), .ok⟩
    | .raisedErr msg =>
      Except.ok
        ⟨nonce, fetched,
          if noncePatternMatches msg then none else some nonce,
          .raisedErr msg⟩

/-! ## W3Pool: private key normalization
W3Pool.__init__ (w3_pool.py lines 140-145): strip a "0x" prefix from
the private key hex string, decode it to bytes, derive the private key
object, its public key, and the checksum account address. Strings are
embedded as lists of characters (python str). -/

/-- The "0x"-stripping of W3Pool.__init__: privkey.startswith("0x")
drops the first two characters. -/
def normalizePrivkey (k : List Char) : List Char :=
  if k.take 2 = ['0', 'x'] then k.drop 2 else k

/-- Whether a character is a hexadecimal digit (0-9, a-f, A-F). -/
def isHexChar (c : Char) : Bool :=
  c.isDigit || ('a' ≤ c && c ≤ 'f') || ('A' ≤ c && c ≤ 'F')

/-- The value of one hex digit character. -/
def hexDigitVal (c : Char) : Nat :=
  if c.isDigit then c.toNat - '0'.toNat
  else if 'a' ≤ c ∧ c ≤ 'f' then c.toNat - 'a'.toNat + 10
  else c.toNat - 'A'.toNat + 10

/-- bytes.fromhex on a plain hex string: consecutive pairs of hex
digits become bytes; fails on a stray character or odd length. -/
def bytesFromHex : List Char → Option (List Nat)
  | [] => some []
  | [_] => none
  | c1 :: c2 :: rest =>
    if isHexChar c1 ∧ isHexChar c2 then
      (bytesFromHex rest).map fun bs => (16 * hexDigitVal c1 + hexDigitVal c2) :: bs
    else none

/-- The derived identity state of the pool: the private key object, the
public key derived from it, and the checksum address derived from the
public key (eth_keys KeyAPI derivations are opaque deterministic
functions, passed in as parameters). -/
structure PoolIdentity (K P A : Type) where
  privkey : K
  pubkey : P
  account : A
  deriving DecidableEq, Repr

/-- W3Pool.__init__ identity derivation: normalize the hex string,
decode it to bytes, build the private key, the public key and the
checksum account address. -/
def mkPoolIdentity {K P A : Type} (keyFromBytes : List Nat → K)
    (pubOf : K → P) (addrOf : P → A) (k : List Char) :
    Option (PoolIdentity K P A) :=
  (bytesFromHex (normalizePrivkey k)).map fun bs =>
    let sk := keyFromBytes bs
    ⟨sk, pubOf sk, addrOf (pubOf sk)⟩

/-! ## Theorems -/

theorem scoreWritesOf_append {α : Type} (a b : List (CacheWrite α)) :
    scoreWritesOf (a ++ b) = scoreWritesOf a ++ scoreWritesOf b :=
  List.filterMap_append _ _ _

theorem scoreWritesOf_syncTick {α : Type} (info : NodeInfo α) (c : CacheState α) :
    scoreWritesOf (syncTick info c).2 = [scoreOf info] := by
  by_cases h : convert_node_status info.status = c.nodeStatus <;>
    simp [syncTick, scoreWritesOf, h]

/-- C9: on every tick of the background sync loop, the mapped remote
status is written to the node-status cache only when it differs from
the currently cached status, while the node score state is written on
every tick regardless of whether the status changed (over a whole trace,
the score writes are exactly one per tick). -/
theorem sync_loop_write_discipline {α : Type} (info : NodeInfo α)
    (infos : List (NodeInfo α)) (c : CacheState α) :
    (syncTick info c).2 =
      (if convert_node_status info.status = c.nodeStatus then []
       else [CacheWrite.nodeWrite (convert_node_status info.status)]) ++
      [CacheWrite.scoreWrite (scoreOf info)] ∧
    (syncTick info c).1.score = scoreOf info ∧
    (syncTick info c).1.nodeStatus = convert_node_status info.status ∧
    scoreWritesOf (start_sync infos c).2 = infos.map scoreOf := by
  refine ⟨?_, ?_, ?_, ?_⟩
  · by_cases h : convert_node_status info.status = c.nodeStatus <;>
      simp [syncTick, h]
  · by_cases h : convert_node_status info.status = c.nodeStatus <;>
      simp [syncTick, set_node_score_state, set_node_state, h]
  · by_cases h : convert_node_status info.status = c.nodeStatus <;>
      simp [syncTick, set_node_score_state, set_node_state, h]
  · induction infos generalizing c with
    | nil => simp [start_sync, scoreWritesOf]
    | cons i rest ih =>
      simp [start_sync, scoreWritesOf_append, scoreWritesOf_syncTick, ih]

/-- C1: the deferred wait of start() and resume() decides on its first
poll: the claim's polling loop (fail unless the status is a legal
running-or-becoming-running value, finish setting TxStatus.Success once
the status maps to Running) coincides with the code's single-poll
_wait_for_running on every nonempty trace, because every legal value
already maps to Running. -/
theorem wait_decides_on_first_poll {α : Type} (s : ChainNodeStatus)
    (rest : List ChainNodeStatus) (c : CacheState α) :
    pollUntilRunningClaim (s :: rest) c = Except.map some (wait_for_running s c) := by
  cases s <;> rfl

/-- C8: stop() with a cached status other than Running, and start()
with a cached node status other than Stopped or a cached transaction
status Pending, each fail with the precondition assertion message
before making any relay call. -/
theorem precondition_enforcement {α : Type} (c : CacheState α)
    (stakingAmount balance : Nat) :
    (c.nodeStatus ≠ NodeStatus.Running →
      (stopOp c).relayCalls = [] ∧
        (stopOp c).outcome = OpOutcome.failed stopNotRunningMsg) ∧
    (c.nodeStatus ≠ NodeStatus.Stopped →
      (startOp c stakingAmount balance).relayCalls = [] ∧
        (startOp c stakingAmount balance).outcome =
          OpOutcome.failed startNotStoppedMsg) ∧
    (c.tx.status = TxStatus.Pending →
      (startOp c stakingAmount balance).relayCalls = [] ∧
        ((startOp c stakingAmount balance).outcome =
            OpOutcome.failed startNotStoppedMsg ∨
          (startOp c stakingAmount balance).outcome =
            OpOutcome.failed txPendingMsg)) := by
  refine ⟨fun h => ?_, fun h => ?_, fun h => ?_⟩
  · simp [stopOp, h]
  · simp [startOp, h]
  · by_cases h2 : c.nodeStatus = NodeStatus.Stopped <;>
      simp [startOp, h, h2]

theorem precondition_enforcement_witness :
    ((stopOp (⟨NodeStatus.Init, ⟨TxStatus.Pending, ""⟩, ⟨0, 0, 0⟩⟩ : CacheState Nat)).relayCalls = [] ∧
      (stopOp (⟨NodeStatus.Init, ⟨TxStatus.Pending, ""⟩, ⟨0, 0, 0⟩⟩ : CacheState Nat)).outcome =
        OpOutcome.failed stopNotRunningMsg) ∧
    ((startOp (⟨NodeStatus.Init, ⟨TxStatus.Pending, ""⟩, ⟨0, 0, 0⟩⟩ : CacheState Nat) 400 0).relayCalls = [] ∧
      (startOp (⟨NodeStatus.Init, ⟨TxStatus.Pending, ""⟩, ⟨0, 0, 0⟩⟩ : CacheState Nat) 400 0).outcome =
        OpOutcome.failed startNotStoppedMsg) ∧
    ((startOp (⟨NodeStatus.Init, ⟨TxStatus.Pending, ""⟩, ⟨0, 0, 0⟩⟩ : CacheState Nat) 400 0).relayCalls = [] ∧
      ((startOp (⟨NodeStatus.Init, ⟨TxStatus.Pending, ""⟩, ⟨0, 0, 0⟩⟩ : CacheState Nat) 400 0).outcome =
          OpOutcome.failed startNotStoppedMsg ∨
        (startOp (⟨NodeStatus.Init, ⟨TxStatus.Pending, ""⟩, ⟨0, 0, 0⟩⟩ : CacheState Nat) 400 0).outcome =
          OpOutcome.failed txPendingMsg)) := by
  have h := precondition_enforcement
    (⟨NodeStatus.Init, ⟨TxStatus.Pending, ""⟩, ⟨0, 0, 0⟩⟩ : CacheState Nat) 400 0
  exact ⟨h.1 (by decide), h.2.1 (by decide), h.2.2 (by decide)⟩

/-- C4 counterexample: starting from a Stopped node with TxStatus None
and a zero balance against a staking amount of 400 tokens, start()
fails with the insufficient-balance error but the cached TxState does
not remain unchanged: _wrap_tx_error records TxStatus.Error with the
error message into the cache before re-raising. -/
theorem start_insufficient_balance_changes_tx :
    ¬ ((startOp (⟨NodeStatus.Stopped, ⟨TxStatus.NoneTx, ""⟩, ⟨0, 0, 0⟩⟩ : CacheState Nat) 400 0).cache.tx
        = (⟨TxStatus.NoneTx, ""⟩ : TxState)) := by decide

/-- C4 (amended): if the balance is below the staking amount in wei,
start() fails with the insufficient-balance error after its only relay
call (the balance query), and the cached TxStatus is set to Error with
that message — in particular it is not set to Pending. -/
theorem start_insufficient_balance {α : Type} (c : CacheState α)
    (stakingAmount balance : Nat) (h1 : c.nodeStatus = NodeStatus.Stopped)
    (h2 : c.tx.status ≠ TxStatus.Pending)
    (h3 : balance < to_wei_ether stakingAmount) :
    (startOp c stakingAmount balance).outcome =
      OpOutcome.failed insufficientBalanceMsg ∧
    (startOp c stakingAmount balance).cache.tx =
      ⟨TxStatus.Error, insufficientBalanceMsg⟩ ∧
    (startOp c stakingAmount balance).cache.tx.status ≠ TxStatus.Pending ∧
    (startOp c stakingAmount balance).relayCalls = [RelayCall.getBalance] := by
  simp [startOp, h1, h2, h3, set_tx_state]

theorem start_insufficient_balance_witness :
    (startOp (⟨NodeStatus.Stopped, ⟨TxStatus.NoneTx, ""⟩, ⟨0, 0, 0⟩⟩ : CacheState Nat) 400 0).outcome
        = OpOutcome.failed insufficientBalanceMsg ∧
    (startOp (⟨NodeStatus.Stopped, ⟨TxStatus.NoneTx, ""⟩, ⟨0, 0, 0⟩⟩ : CacheState Nat) 400 0).cache.tx =
        ⟨TxStatus.Error, insufficientBalanceMsg⟩ := by
  have h := start_insufficient_balance
    (⟨NodeStatus.Stopped, ⟨TxStatus.NoneTx, ""⟩, ⟨0, 0, 0⟩⟩ : CacheState Nat) 400 0
    rfl (by decide) (by norm_num [to_wei_ether])
  exact ⟨h.1, h.2.1⟩

/-- C2: with_nonce on an open pool fetches the remote pending count
exactly when no nonce is cached, yields the cached-or-fetched nonce,
advances the cache by one on successful scope completion, clears the
cache and re-raises on an exception matching the nonce pattern, leaves
the cache at its post-entry value and re-raises on any other exception;
a cleared cache forces a remote refetch on the next acquisition. -/
theorem with_nonce_spec (cached : Option Nat) (remote : Nat)
    (scope : Nat → ScopeResult) :
    ∃ r : NonceResult, with_nonce false cached remote scope = Except.ok r ∧
      (r.fetched = true ↔ cached = none) ∧
      r.yielded = cached.getD remote ∧
      (scope r.yielded = ScopeResult.ok →
        r.newCache = some (r.yielded + 1) ∧ r.outcome = ScopeResult.ok) ∧
      (∀ msg, scope r.yielded = ScopeResult.raisedErr msg →
        r.outcome = ScopeResult.raisedErr msg ∧
        (noncePatternMatches msg = true → r.newCache = none) ∧
        (noncePatternMatches msg = false → r.newCache = some r.yielded)) ∧
      (∀ remote2 scope2, ∃ r2 : NonceResult,
        with_nonce false none remote2 scope2 = Except.ok r2 ∧
          r2.fetched = true ∧ r2.yielded = remote2) := by
  have hnext : ∀ (remote2 : Nat) (scope2 : Nat → ScopeResult),
      ∃ r2 : NonceResult, with_nonce false none remote2 scope2 = Except.ok r2 ∧
        r2.fetched = true ∧ r2.yielded = remote2 := by
    intro remote2 scope2
    cases h2 : scope2 remote2 with
    | ok =>
      exact ⟨⟨remote2, true, some (remote2 + 1), .ok⟩,
        by simp [with_nonce, h2], rfl, rfl⟩
    | raisedErr m =>
      exact ⟨⟨remote2, true,
        if noncePatternMatches m then none else some remote2, .raisedErr m⟩,
        by simp [with_nonce, h2], rfl, rfl⟩
  cases h : scope (cached.getD remote) with
  | ok =>
    refine ⟨⟨cached.getD remote, cached.isNone, some (cached.getD remote + 1), .ok⟩,
      by simp [with_nonce, h], Option.isNone_iff_eq_none, rfl, fun _ => ⟨rfl, rfl⟩,
      fun msg hmsg => ?_, hnext⟩
    rw [h] at hmsg
    exact absurd hmsg (by simp)
  | raisedErr m =>
    refine ⟨⟨cached.getD remote, cached.isNone,
      if noncePatternMatches m then none else some (cached.getD remote), .raisedErr m⟩,
      by simp [with_nonce, h], Option.isNone_iff_eq_none, rfl,
      fun hok => ?_, fun msg hmsg => ?_, hnext⟩
    · rw [h] at hok
      exact absurd hok (by simp)
    · rw [h] at hmsg
      cases hmsg
      refine ⟨rfl, fun hp => ?_, fun hp => ?_⟩ <;> simp [hp]

theorem with_nonce_spec_witness :
    ∃ r : NonceResult,
      with_nonce false (some 5) 9 (fun _ => ScopeResult.raisedErr "nonce too low") =
        Except.ok r ∧ r.yielded = 5 ∧ r.newCache = none := by
  obtain ⟨r, hok, _, hy, _, herr, _⟩ :=
    with_nonce_spec (some 5) 9 (fun _ => ScopeResult.raisedErr "nonce too low")
  have h := herr "nonce too low" rfl
  exact ⟨r, hok, hy, h.2.1 (by decide)⟩

theorem mem_dequeAppend {m : Nat} {q : List Nat} {a x : Nat}
    (h : x ∈ dequeAppend m q a) : x ∈ q ∨ x = a := by
  unfold dequeAppend at h
  split at h
  · have := (List.tail_sublist (q ++ [a])).subset h
    simpa using this
  · simpa using h

theorem nodup_dequeAppend {m : Nat} {q : List Nat} {a : Nat}
    (h : q.Nodup) (ha : a ∉ q) : (dequeAppend m q a).Nodup := by
  have hq : (q ++ [a]).Nodup := by
    simp [List.nodup_append, h, ha]
  unfold dequeAppend
  split
  · exact (List.tail_sublist (q ++ [a])).nodup hq
  · exact hq

theorem on_guard_idle_guards (s : PoolState) (id : Nat) :
    (on_guard_idle s id).guards = s.guards := by
  unfold on_guard_idle
  split <;> rfl

theorem on_guard_idle_nextId (s : PoolState) (id : Nat) :
    (on_guard_idle s id).nextId = s.nextId := by
  unfold on_guard_idle
  split <;> rfl

theorem on_guard_idle_poolSize (s : PoolState) (id : Nat) :
    (on_guard_idle s id).poolSize = s.poolSize := by
  unfold on_guard_idle
  split <;> rfl

theorem on_guard_close_nextId (s : PoolState) (id : Nat) :
    (on_guard_close s id).nextId = s.nextId := by
  unfold on_guard_close
  split <;> rfl

theorem on_guard_close_poolSize (s : PoolState) (id : Nat) :
    (on_guard_close s id).poolSize = s.poolSize := by
  unfold on_guard_close
  split <;> rfl

theorem inv_on_guard_idle {s : PoolState} {id : Nat} (h : PoolInv s)
    (hid : id ∉ s.idlePool) : PoolInv (on_guard_idle s id) := by
  obtain ⟨h1, h2, h3, h4, h5⟩ := h
  unfold on_guard_idle
  split
  next hmem =>
    exact ⟨h1, h2, nodup_dequeAppend h3 hid,
      fun x hx => (mem_dequeAppend hx).elim (h4 x) (fun he => he ▸ hmem), h5⟩
  next => exact ⟨h1, h2, h3, h4, h5⟩

theorem inv_on_guard_close {s : PoolState} (id : Nat) (h : PoolInv s) :
    PoolInv (on_guard_close s id) := by
  obtain ⟨h1, h2, h3, h4, h5⟩ := h
  unfold on_guard_close
  split
  next =>
    refine ⟨le_trans (List.erase_sublist _ _).length_le h1, h2.erase id,
      h3.erase id, fun x hx => ?_, fun x hx => h5 x (List.mem_of_mem_erase hx)⟩
    have hx' := (h3.mem_erase_iff).mp hx
    exact (List.mem_erase_of_ne hx'.1).mpr (h4 x hx'.2)
  next => exact ⟨h1, h2, h3, h4, h5⟩

theorem inv_get {s : PoolState} (h : PoolInv s) : PoolInv (get s).1 := by
  obtain ⟨h1, h2, h3, h4, h5⟩ := h
  unfold get
  split
  · exact ⟨h1, h2, h3, h4, h5⟩
  split
  next hc =>
    have hnotmem : s.nextId ∉ s.guards := fun hm => lt_irrefl _ (h5 _ hm)
    refine ⟨?_, ?_, h3, fun x hx => ?_, fun x hx => ?_⟩
    · simpa using hc.2
    · simp [List.nodup_append, h2, hnotmem]
    · exact List.mem_append_left _ (h4 x hx)
    · rcases List.mem_append.mp hx with hx' | hx'
      · exact lt_trans (h5 x hx') (Nat.lt_succ_self _)
      · simp at hx'
        simp [hx']
  next =>
    cases hq : s.idlePool with
    | nil => exact ⟨h1, h2, h3, h4, h5⟩
    | cons a rest =>
      refine ⟨h1, h2, ?_, fun x hx => ?_, h5⟩
      · have := h3
        rw [hq] at this
        exact this.of_cons
      · apply h4
        rw [hq]
        exact List.mem_cons_of_mem _ hx

theorem inv_foldl_close : ∀ (l : List Nat) (s : PoolState), PoolInv s →
    PoolInv (List.foldl on_guard_close s l)
  | [], _, h => h
  | a :: as, _, h => inv_foldl_close as _ (inv_on_guard_close a h)

theorem inv_closePool {s : PoolState} (h : PoolInv s) : PoolInv (closePool s) := by
  unfold closePool
  split
  · exact h
  · exact inv_foldl_close s.guards s h

theorem inv_applyPoolOp {s : PoolState} {op : PoolOp} (h : PoolInv s)
    (he : opEnabled s op = true) : PoolInv (applyPoolOp s op) := by
  cases op with
  | acquire => exact inv_get h
  | release id =>
    have : id ∉ s.idlePool := by simpa [opEnabled] using he
    exact inv_on_guard_idle h this
  | evict id => exact inv_on_guard_close id h
  | close => exact inv_closePool h

theorem inv_runPoolOps : ∀ (ops : List PoolOp) (s : PoolState), PoolInv s →
    enabledRun s ops = true → PoolInv (runPoolOps s ops)
  | [], _, h, _ => h
  | op :: ops, s, h, he => by
    rw [enabledRun, Bool.and_eq_true] at he
    exact inv_runPoolOps ops _ (inv_applyPoolOp h he.1) he.2

theorem poolSize_foldl_close : ∀ (l : List Nat) (s : PoolState),
    (List.foldl on_guard_close s l).poolSize = s.poolSize
  | [], _ => rfl
  | a :: as, s => by
    rw [List.foldl_cons, poolSize_foldl_close as _, on_guard_close_poolSize]

theorem get_poolSize (s : PoolState) : (get s).1.poolSize = s.poolSize := by
  unfold get
  split
  · rfl
  split
  · rfl
  · cases s.idlePool <;> rfl

theorem poolSize_applyPoolOp (s : PoolState) (op : PoolOp) :
    (applyPoolOp s op).poolSize = s.poolSize := by
  cases op with
  | acquire => exact get_poolSize s
  | release id => exact on_guard_idle_poolSize s id
  | evict id => exact on_guard_close_poolSize s id
  | close =>
    show (closePool s).poolSize = s.poolSize
    unfold closePool
    split
    · rfl
    · simp [poolSize_foldl_close]

theorem poolSize_runPoolOps : ∀ (ops : List PoolOp) (s : PoolState),
    (runPoolOps s ops).poolSize = s.poolSize
  | [], _ => rfl
  | op :: ops, s => by
    rw [runPoolOps, List.foldl_cons]
    rw [show List.foldl applyPoolOp (applyPoolOp s op) ops =
      runPoolOps (applyPoolOp s op) ops from rfl]
    rw [poolSize_runPoolOps ops _, poolSize_applyPoolOp]

theorem get_fresh_characterization {s s' : PoolState} {id : Nat}
    (h : get s = (s', GetResult.fresh id)) :
    s.idlePool = [] ∧ s.guards.length < s.poolSize ∧ id = s.nextId := by
  unfold get at h
  split at h
  · simp at h
  split at h
  next hc =>
    refine ⟨List.isEmpty_iff.mp hc.1, hc.2, ?_⟩
    have := congrArg Prod.snd h
    simp at this
    exact this.symm
  next =>
    cases hq : s.idlePool with
    | nil =>
      rw [hq] at h
      simp at h
    | cons a rest =>
      rw [hq] at h
      simp at h

theorem get_reused_characterization {s s' : PoolState} {id : Nat}
    (h : get s = (s', GetResult.reused id)) :
    s.idlePool.head? = some id := by
  unfold get at h
  split at h
  · simp at h
  split at h
  · simp at h
  · cases hq : s.idlePool with
    | nil =>
      rw [hq] at h
      simp at h
    | cons a rest =>
      rw [hq] at h
      simp at h
      simp [h.2]

/-- C3: over every enabled sequence of interleaved acquire, release,
evict and close operations starting from a fresh pool, the guard table
never exceeds the configured pool size, every id in the idle deque is
tracked in the guard table, and an acquire is satisfied only by popping
the front idle guard (itself tracked) or by constructing the next fresh
guard while the idle deque is empty and the guard table is strictly
below capacity. -/
theorem pool_capacity_invariant (ps : Nat) (ops : List PoolOp)
    (h : enabledRun (initPool ps) ops = true) :
    (runPoolOps (initPool ps) ops).guards.length ≤ ps ∧
    (∀ id ∈ (runPoolOps (initPool ps) ops).idlePool,
      id ∈ (runPoolOps (initPool ps) ops).guards) ∧
    (∀ s' id, get (runPoolOps (initPool ps) ops) = (s', GetResult.fresh id) →
      (runPoolOps (initPool ps) ops).idlePool = [] ∧
      (runPoolOps (initPool ps) ops).guards.length < ps ∧
      id = (runPoolOps (initPool ps) ops).nextId) ∧
    (∀ s' id, get (runPoolOps (initPool ps) ops) = (s', GetResult.reused id) →
      (runPoolOps (initPool ps) ops).idlePool.head? = some id ∧
      id ∈ (runPoolOps (initPool ps) ops).guards) := by
  have hinit : PoolInv (initPool ps) := by
    refine ⟨by simp [initPool], by simp [initPool], by simp [initPool], ?_, ?_⟩ <;>
      simp [initPool]
  have hinv := inv_runPoolOps ops (initPool ps) hinit h
  have hsize : (runPoolOps (initPool ps) ops).poolSize = ps :=
    poolSize_runPoolOps ops (initPool ps)
  refine ⟨le_of_le_of_eq hinv.1 hsize, hinv.2.2.2.1,
    fun s' id hg => ?_, fun s' id hg => ?_⟩
  · obtain ⟨e1, e2, e3⟩ := get_fresh_characterization hg
    exact ⟨e1, lt_of_lt_of_eq e2 hsize, e3⟩
  · have hh := get_reused_characterization hg
    exact ⟨hh, hinv.2.2.2.1 id (List.mem_of_mem_head? hh)⟩

theorem pool_capacity_invariant_witness :
    (runPoolOps (initPool 2) [PoolOp.acquire, PoolOp.acquire,
      PoolOp.release 1, PoolOp.acquire, PoolOp.evict 2]).guards.length ≤ 2 ∧
    (∀ id ∈ (runPoolOps (initPool 2) [PoolOp.acquire, PoolOp.acquire,
        PoolOp.release 1, PoolOp.acquire, PoolOp.evict 2]).idlePool,
      id ∈ (runPoolOps (initPool 2) [PoolOp.acquire, PoolOp.acquire,
        PoolOp.release 1, PoolOp.acquire, PoolOp.evict 2]).guards) := by
  have h := pool_capacity_invariant 2 [PoolOp.acquire, PoolOp.acquire,
    PoolOp.release 1, PoolOp.acquire, PoolOp.evict 2] (by decide)
  exact ⟨h.1, h.2.1⟩

theorem foldl_close_guards : ∀ (l : List Nat) (t : PoolState), t.guards = l →
    (List.foldl on_guard_close t l).guards = []
  | [], t, ht => by simpa using ht.symm
  | a :: as, t, ht => by
    rw [List.foldl_cons]
    refine foldl_close_guards as _ ?_
    simp [on_guard_close, ht]

theorem closePool_of_closed {t : PoolState} (ht : t.closed = true) :
    closePool t = t := by
  unfold closePool
  rw [if_pos ht]

theorem get_of_closed {t : PoolState} (ht : t.closed = true) :
    get t = (t, GetResult.poolClosed) := by
  unfold get
  rw [if_pos ht]

/-- C6: closing the pool empties the guard table (every guard live at
close time is closed, including guards currently handed out), marks the
pool closed so that any acquisition — a woken waiter or a later call —
fails with the pool-closed result, and close is idempotent. -/
theorem pool_close_drains (s : PoolState) (h : s.closed = false) :
    (closePool s).guards = [] ∧ (closePool s).closed = true ∧
    get (closePool s) = (closePool s, GetResult.poolClosed) ∧
    closePool (closePool s) = closePool s := by
  have hguards : (closePool s).guards = [] := by
    unfold closePool
    rw [if_neg (by simp [h])]
    simpa using foldl_close_guards s.guards s rfl
  have hclosed : (closePool s).closed = true := by
    unfold closePool
    rw [if_neg (by simp [h])]
  exact ⟨hguards, hclosed, get_of_closed hclosed, closePool_of_closed hclosed⟩

theorem pool_close_drains_witness :
    (closePool ⟨1, [], [1], 2, false⟩).guards = [] ∧
    (closePool ⟨1, [], [1], 2, false⟩).closed = true ∧
    get (closePool ⟨1, [], [1], 2, false⟩) =
      (closePool ⟨1, [], [1], 2, false⟩, GetResult.poolClosed) ∧
    closePool (closePool ⟨1, [], [1], 2, false⟩) =
      closePool ⟨1, [], [1], 2, false⟩ :=
  pool_close_drains ⟨1, [], [1], 2, false⟩ rfl

/-- C5 counterexample: for a pool of size 2 whose only live guard 1 is
handed out, a ConnectionClosed raised inside the guard scope is
suppressed by W3Guard.__aexit__ (it returns True after closing the
guard), so the error is not surfaced to the caller as the claim
states. -/
theorem conn_closed_not_surfaced :
    ¬ ((guardExit ⟨2, [], [1], 2, false⟩ 1 ExitExc.connClosed).2 = false) := by
  decide

theorem not_reacquired : ∀ (ops : List PoolOp) (s : PoolState) (id : Nat),
    id ∉ s.guards → id < s.nextId →
    id ∉ (runPoolOps s ops).guards ∧ id < (runPoolOps s ops).nextId
  | [], _, _, h1, h2 => ⟨h1, h2⟩
  | op :: ops, s, id, h1, h2 => by
    have hstep : id ∉ (applyPoolOp s op).guards ∧ id < (applyPoolOp s op).nextId := by
      cases op with
      | acquire =>
        show id ∉ (get s).1.guards ∧ id < (get s).1.nextId
        unfold get
        split
        · exact ⟨h1, h2⟩
        split
        · constructor
          · intro hmem
            rcases List.mem_append.mp hmem with hx | hx
            · exact h1 hx
            · simp at hx
              exact absurd hx (Nat.ne_of_lt h2)
          · exact lt_trans h2 (Nat.lt_succ_self _)
        · cases hq : s.idlePool with
          | nil => exact ⟨h1, h2⟩
          | cons a rest => exact ⟨h1, h2⟩
      | release id2 =>
        rw [show applyPoolOp s (PoolOp.release id2) = on_guard_idle s id2 from rfl,
          on_guard_idle_guards, on_guard_idle_nextId]
        exact ⟨h1, h2⟩
      | evict id2 =>
        show id ∉ (on_guard_close s id2).guards ∧ id < (on_guard_close s id2).nextId
        unfold on_guard_close
        split
        · exact ⟨fun hm => h1 (List.mem_of_mem_erase hm), h2⟩
        · exact ⟨h1, h2⟩
      | close =>
        show id ∉ (closePool s).guards ∧ id < (closePool s).nextId
        have hf : ∀ (l : List Nat) (t : PoolState), id ∉ t.guards →
            id ∉ (List.foldl on_guard_close t l).guards ∧
              (List.foldl on_guard_close t l).nextId = t.nextId := by
          intro l
          induction l with
          | nil => exact fun t ht => ⟨ht, rfl⟩
          | cons a as ih =>
            intro t ht
            rw [List.foldl_cons]
            have ht2 : id ∉ (on_guard_close t a).guards := by
              unfold on_guard_close
              split
              · exact fun hm => ht (List.mem_of_mem_erase hm)
              · exact ht
            obtain ⟨u1, u2⟩ := ih _ ht2
            exact ⟨u1, by rw [u2, on_guard_close_nextId]⟩
        unfold closePool
        split
        · exact ⟨h1, h2⟩
        · obtain ⟨u1, u2⟩ := hf s.guards s h1
          exact ⟨by simpa using u1, by simpa [u2] using h2⟩
    obtain ⟨r1, r2⟩ := not_reacquired ops (applyPoolOp s op) id hstep.1 hstep.2
    exact ⟨r1, r2⟩

/-- C5 (amended): when the operation inside the scope of a live guard
raises ConnectionClosed, the guard closes itself instead of returning
to the idle deque — its id is removed from the guard table and the idle
deque and is never handed out again by any later sequence of pool
operations — but the exception is suppressed by the guard's scope exit
(it returns True), not surfaced to the caller. -/
theorem guard_transport_fatal (s : PoolState) (id : Nat) (hinv : PoolInv s)
    (hmem : id ∈ s.guards) :
    id ∉ (guardExit s id ExitExc.connClosed).1.guards ∧
    id ∉ (guardExit s id ExitExc.connClosed).1.idlePool ∧
    (guardExit s id ExitExc.connClosed).2 = true ∧
    (∀ ops, id ∉ (runPoolOps (guardExit s id ExitExc.connClosed).1 ops).guards) := by
  obtain ⟨h1, h2, h3, h4, h5⟩ := hinv
  have hout : id ∉ (on_guard_close s id).guards ∧
      id ∉ (on_guard_close s id).idlePool ∧
      id < (on_guard_close s id).nextId := by
    unfold on_guard_close
    rw [if_pos hmem]
    refine ⟨fun hm => ?_, fun hm => ?_, h5 id hmem⟩
    · exact ((h2.mem_erase_iff).mp hm).1 rfl
    · exact ((h3.mem_erase_iff).mp hm).1 rfl
  refine ⟨hout.1, hout.2.1, rfl, fun ops => ?_⟩
  exact (not_reacquired ops (on_guard_close s id) id hout.1 hout.2.2).1

theorem guard_transport_fatal_witness :
    1 ∉ (guardExit ⟨2, [], [1], 2, false⟩ 1 ExitExc.connClosed).1.guards ∧
    1 ∉ (guardExit ⟨2, [], [1], 2, false⟩ 1 ExitExc.connClosed).1.idlePool ∧
    (guardExit ⟨2, [], [1], 2, false⟩ 1 ExitExc.connClosed).2 = true ∧
    1 ∉ (runPoolOps (guardExit ⟨2, [], [1], 2, false⟩ 1 ExitExc.connClosed).1
      [PoolOp.acquire, PoolOp.acquire]).guards := by
  have h := guard_transport_fatal ⟨2, [], [1], 2, false⟩ 1
    (by refine ⟨?_, ?_, ?_, ?_, ?_⟩ <;> decide) (by decide)
  exact ⟨h.1, h.2.1, h.2.2.1, h.2.2.2 [PoolOp.acquire, PoolOp.acquire]⟩

theorem nodeWritesOf_cons_node {α : Type} (s : NodeStatus) (ws : List (CacheWrite α)) :
    nodeWritesOf (CacheWrite.nodeWrite s :: ws) = s :: nodeWritesOf ws := rfl

theorem nodeWritesOf_cons_tx {α : Type} (t : TxState) (ws : List (CacheWrite α)) :
    nodeWritesOf (CacheWrite.txWrite t :: ws) = nodeWritesOf ws := rfl

theorem txWritesOf_cons_node {α : Type} (s : NodeStatus) (ws : List (CacheWrite α)) :
    txWritesOf (CacheWrite.nodeWrite s :: ws) = txWritesOf ws := rfl

theorem txWritesOf_cons_tx {α : Type} (t : TxState) (ws : List (CacheWrite α)) :
    txWritesOf (CacheWrite.txWrite t :: ws) = t :: txWritesOf ws := rfl

theorem waitForStopGo_legal {α : Type} :
    ∀ (trace : List ChainNodeStatus) (c : CacheState α) (pending : Bool),
    (∀ s ∈ trace, stopLegal s = true) →
    nodeWritesOf (waitForStopGo trace c pending).writes =
      (polledPart trace).map convert_node_status ∧
    txWritesOf (waitForStopGo trace c pending).writes =
      (if pending = true ∧ trace ≠ [] then [⟨TxStatus.Success, ""⟩] else []) ∧
    ((waitForStopGo trace c pending).outcome = WaitOutcome.done ↔
      ∃ s ∈ trace, convert_node_status s = NodeStatus.Stopped) ∧
    (waitForStopGo trace c pending).outcome ≠ WaitOutcome.assertFailed stopAssertMsg
  | [], c, pending, _ => by
    simp [waitForStopGo, nodeWritesOf, txWritesOf, polledPart]
  | s :: rest, c, pending, h => by
    have hs := h s (List.mem_cons_self s rest)
    have hrest : ∀ x ∈ rest, stopLegal x = true :=
      fun x hx => h x (List.mem_cons_of_mem s hx)
    cases s with
    | QUIT =>
      cases pending <;>
        simp [waitForStopGo, convert_node_status, polledPart, nodeWritesOf,
          txWritesOf]
    | PENDING_QUIT =>
      have ih := waitForStopGo_legal rest
        (if pending then
          set_tx_state (set_node_state c NodeStatus.PendingStop) .Success ""
         else set_node_state c NodeStatus.PendingStop) false hrest
      cases pending with
      | true =>
        obtain ⟨ih1, ih2, ih3, ih4⟩ := ih
        refine ⟨?_, ?_, ?_, ?_⟩
        · simpa [waitForStopGo, convert_node_status, polledPart,
            nodeWritesOf_cons_node, nodeWritesOf_cons_tx] using ih1
        · simp only [if_true] at ih2
          simpa [waitForStopGo, convert_node_status, txWritesOf_cons_node,
            txWritesOf_cons_tx] using ih2
        · simpa [waitForStopGo, convert_node_status] using ih3
        · simpa [waitForStopGo, convert_node_status] using ih4
      | false =>
        obtain ⟨ih1, ih2, ih3, ih4⟩ := ih
        refine ⟨?_, ?_, ?_, ?_⟩
        · simpa [waitForStopGo, convert_node_status, polledPart,
            nodeWritesOf_cons_node] using ih1
        · simpa [waitForStopGo, convert_node_status, txWritesOf_cons_node]
            using ih2
        · simpa [waitForStopGo, convert_node_status] using ih3
        · simpa [waitForStopGo, convert_node_status] using ih4
    | AVAILABLE => exact absurd hs (by decide)
    | BUSY => exact absurd hs (by decide)
    | PENDING_PAUSE => exact absurd hs (by decide)
    | PAUSED => exact absurd hs (by decide)

theorem waitForStopGo_fails {α : Type} :
    ∀ (pre : List ChainNodeStatus) (b : ChainNodeStatus)
      (post : List ChainNodeStatus) (c : CacheState α) (pending : Bool),
    (∀ s ∈ pre, stopLegal s = true ∧ convert_node_status s ≠ NodeStatus.Stopped) →
    stopLegal b = false →
    (waitForStopGo (pre ++ b :: post) c pending).outcome =
      WaitOutcome.assertFailed stopAssertMsg
  | [], b, post, c, pending, _, hb => by
    cases b with
    | QUIT => exact absurd hb (by decide)
    | PENDING_QUIT => exact absurd hb (by decide)
    | AVAILABLE => cases pending <;> rfl
    | BUSY => cases pending <;> rfl
    | PENDING_PAUSE => cases pending <;> rfl
    | PAUSED => cases pending <;> rfl
  | s :: pre, b, post, c, pending, hpre, hb => by
    have hs := hpre s (List.mem_cons_self s pre)
    have hpre' : ∀ x ∈ pre, stopLegal x = true ∧
        convert_node_status x ≠ NodeStatus.Stopped :=
      fun x hx => hpre x (List.mem_cons_of_mem s hx)
    cases s with
    | QUIT => exact absurd rfl hs.2
    | AVAILABLE => exact absurd hs.1 (by decide)
    | BUSY => exact absurd hs.1 (by decide)
    | PENDING_PAUSE => exact absurd hs.1 (by decide)
    | PAUSED => exact absurd hs.1 (by decide)
    | PENDING_QUIT =>
      have ih := waitForStopGo_fails pre b post
        (if pending then
          set_tx_state (set_node_state c NodeStatus.PendingStop) .Success ""
         else set_node_state c NodeStatus.PendingStop) false hpre' hb
      cases pending <;>
        simpa [waitForStopGo, convert_node_status] using ih

/-- C7: over every trace of polled remote statuses, the wait of stop()
fails with the assertion message as soon as a polled status maps
outside {Stopped, PendingStop}; on an all-legal trace it never fails,
writes the mapped status to the node-status cache at every observation,
writes TxStatus.Success exactly once — at the first observation,
immediately after that observation's node-status write, independent of
reaching the terminal value — and reaches the done outcome exactly when
some polled status maps to Stopped. -/
theorem wait_for_stop_spec {α : Type} (trace : List ChainNodeStatus)
    (c : CacheState α) :
    ((∀ s ∈ trace, stopLegal s = true) →
      nodeWritesOf (wait_for_stop trace c).writes =
        (polledPart trace).map convert_node_status ∧
      txWritesOf (wait_for_stop trace c).writes =
        (if trace.isEmpty then [] else [⟨TxStatus.Success, ""⟩]) ∧
      ((wait_for_stop trace c).outcome = WaitOutcome.done ↔
        ∃ s ∈ trace, convert_node_status s = NodeStatus.Stopped) ∧
      (wait_for_stop trace c).outcome ≠ WaitOutcome.assertFailed stopAssertMsg) ∧
    (∀ pre b post, trace = pre ++ b :: post →
      (∀ s ∈ pre, stopLegal s = true ∧
        convert_node_status s ≠ NodeStatus.Stopped) →
      stopLegal b = false →
      (wait_for_stop trace c).outcome = WaitOutcome.assertFailed stopAssertMsg) ∧
    (∀ s rest, trace = s :: rest → stopLegal s = true →
      (wait_for_stop trace c).writes.take 2 =
        [CacheWrite.nodeWrite (convert_node_status s),
          CacheWrite.txWrite ⟨TxStatus.Success, ""⟩]) := by
  refine ⟨fun h => ?_, fun pre b post heq hpre hb => ?_, fun s rest heq hs => ?_⟩
  · obtain ⟨h1, h2, h3, h4⟩ := waitForStopGo_legal trace c true h
    refine ⟨h1, ?_, h3, h4⟩
    show txWritesOf (waitForStopGo trace c true).writes = _
    rw [h2]
    cases trace <;> simp
  · rw [heq]
    exact waitForStopGo_fails pre b post c true hpre hb
  · subst heq
    cases s with
    | QUIT => rfl
    | PENDING_QUIT => rfl
    | AVAILABLE => exact absurd hs (by decide)
    | BUSY => exact absurd hs (by decide)
    | PENDING_PAUSE => exact absurd hs (by decide)
    | PAUSED => exact absurd hs (by decide)

theorem wait_for_stop_spec_witness :
    nodeWritesOf (wait_for_stop [ChainNodeStatus.PENDING_QUIT, ChainNodeStatus.QUIT]
        (⟨NodeStatus.Running, ⟨TxStatus.Pending, ""⟩, ⟨0, 0, 0⟩⟩ : CacheState Nat)).writes =
      [NodeStatus.PendingStop, NodeStatus.Stopped] ∧
    txWritesOf (wait_for_stop [ChainNodeStatus.PENDING_QUIT, ChainNodeStatus.QUIT]
        (⟨NodeStatus.Running, ⟨TxStatus.Pending, ""⟩, ⟨0, 0, 0⟩⟩ : CacheState Nat)).writes =
      [⟨TxStatus.Success, ""⟩] ∧
    (wait_for_stop [ChainNodeStatus.PENDING_QUIT, ChainNodeStatus.QUIT]
        (⟨NodeStatus.Running, ⟨TxStatus.Pending, ""⟩, ⟨0, 0, 0⟩⟩ : CacheState Nat)).outcome =
      WaitOutcome.done := by
  have h := (wait_for_stop_spec [ChainNodeStatus.PENDING_QUIT, ChainNodeStatus.QUIT]
    (⟨NodeStatus.Running, ⟨TxStatus.Pending, ""⟩, ⟨0, 0, 0⟩⟩ : CacheState Nat)).1
    (by decide)
  refine ⟨?_, ?_, ?_⟩
  · rw [h.1]
    decide
  · rw [h.2.1]
    decide
  · exact h.2.2.1.mpr ⟨ChainNodeStatus.QUIT, by simp, rfl⟩

/-- C10: constructing the pool identity from "0x" ++ k and from k, for
a hexadecimal private-key string k, yields the same private key, the
same public key and the same checksum account address, since the "0x"
normalization strips exactly the prefix and a hex string never starts
with "0x". -/
theorem privkey_normalization {K P A : Type} (keyFromBytes : List Nat → K)
    (pubOf : K → P) (addrOf : P → A) (k : List Char)
    (h : ∀ c ∈ k, isHexChar c = true) :
    mkPoolIdentity keyFromBytes pubOf addrOf ('0' :: 'x' :: k) =
      mkPoolIdentity keyFromBytes pubOf addrOf k := by
  have h1 : normalizePrivkey ('0' :: 'x' :: k) = k := by
    simp [normalizePrivkey]
  have h2 : normalizePrivkey k = k := by
    rcases k with _ | ⟨a, _ | ⟨b, t⟩⟩
    · rfl
    · simp [normalizePrivkey]
    · have hb : isHexChar b = true := h b (by simp)
      unfold normalizePrivkey
      split
      next heq =>
        simp at heq
        rw [heq.2] at hb
        exact absurd hb (by decide)
      next => rfl
  rw [mkPoolIdentity, mkPoolIdentity, h1, h2]

theorem privkey_normalization_witness :
    mkPoolIdentity (fun bs => bs) (fun x => x) (fun x => x)
        ('0' :: 'x' :: ['a', 'b']) =
      mkPoolIdentity (fun bs => bs) (fun x => x) (fun x => x) ['a', 'b'] :=
  privkey_normalization (fun bs => bs) (fun x => x) (fun x => x) ['a', 'b']
    (by decide)

end Crynux
